import Mathlib

/-!
Shallow embedding of the fingerprinting and correlation engine of the
`pe` module (src/modules/pe.py) of the viper repository, together with
proofs settling the frozen claims about it.

Modelling conventions:
* Python strings are modelled as `List Char` (`PyStr`).  Python's
  `x in s` / `s.find(x) != -1` substring test is `hasSubstr`.
* External collaborators (hashlib's MD5, libmagic file typing, pefile's
  RESOURCE_TYPE / LANG tables and `get_imphash`, the sample database and
  file fetching) are parameters: an `Externals` record of abstract
  functions, and per-scan `fetch` functions `DbSample → Option _` whose
  `none` models a missing file on disk or a parse failure (both are
  silent skips in the source).
* MD5 and SHA256 digest values are opaque; only equality on them is ever
  used by the source, so they are modelled as `Nat`.
* Section entropy is the rational value returned by pefile's
  `get_entropy()` (an external computation); the source only compares it
  with the constant 7.
* The `%-8s`/`hex` formatting of resource offsets and sizes is an
  injective rendering of the underlying numbers, so records keep the
  numbers themselves.
* Integer truthiness (`if arg_window:`, `if arg_open:`) and string
  truthiness (`if arg_dump:`) follow Python: zero / empty are falsy.
* The compile-time delta uses Python 2 integer division:
  `int(delta.total_seconds()) / 60` is floor division.
-/

abbrev PyStr := List Char

/-- Python's `sub in s` / `s.find(sub) != -1`: `sub` occurs as a
contiguous substring of `s`. -/
def hasSubstr (sub : PyStr) : PyStr → Bool
  | [] => sub.isEmpty
  | c :: rest => List.isPrefixOf sub (c :: rest) || hasSubstr sub rest

/-- Python truthiness of an optional integer argument (`if arg:` with
`arg = None` or `arg = int(value)`). -/
def pyTruthyInt : Option Int → Bool
  | none => false
  | some n => n != 0

/-- Python truthiness of an optional string argument. -/
def pyTruthyStr : Option PyStr → Bool
  | none => false
  | some s => !s.isEmpty

-- String constants used by the language heuristic (src/modules/pe.py).
def sVB : PyStr := "VB".toList
def sMscoree : PyStr := "mscoree.dll".toList
def sMsvcrLower : PyStr := "msvcr".toList
def sMsvcrUpper : PyStr := "MSVCR".toList
def sCplusplus : PyStr := "c++".toList
def sTypeInfo : PyStr := "type_info".toList
def sRTTI : PyStr := "RTTI".toList
def sBorland : PyStr := "Borland".toList
def sDelphi : PyStr := "Delphi".toList
def sCompiler : PyStr := "Compiler".toList
def sVisualBasic : PyStr := "VisualBasic".toList
def sAU3 : PyStr := "AU3!".toList
def sNone : PyStr := "None".toList

/-- A PE section, as used by the module: only its pefile entropy value
is ever consulted (`s.get_entropy() > 7` in `is_packed`). -/
structure Sect where
  entropy : ℚ
deriving DecidableEq

/-- A language-level leaf of the resource tree
(`resource_lang.data.struct` and `resource_lang.data` fields). -/
structure ResLang where
  offsetToData : Nat
  dsize : Nat
  langId : Nat
  sublangId : Nat
deriving DecidableEq

/-- A name/id-level entry of the resource tree; `directory = none`
models a failing `hasattr(resource_id, 'directory')` check. -/
structure ResId where
  directory : Option (List ResLang)
deriving DecidableEq

/-- A type-level entry of the resource tree.  `tname` is
`resource_type.name` (a string or `None`), `tid` is
`resource_type.struct.Id`. -/
structure ResType where
  tname : Option PyStr
  tid : Nat
  directory : Option (List ResId)
deriving DecidableEq

/-- The parsed-binary model consumed by the module.  `getData` models
`pe.get_data(offset, size)`; a `none` result models the exception this
pefile call raises on malformed entries.  `fileBytes` is the output of
`pe.write()`.  `imports` is the list of `entry.dll` names of
`DIRECTORY_ENTRY_IMPORT`; `resourceDir = none` models a failing
`hasattr(pe, 'DIRECTORY_ENTRY_RESOURCE')`. -/
structure PEFile where
  sections : List Sect
  imports : List PyStr
  resourceDir : Option (List ResType)
  secDirAddress : Nat
  secDirSize : Nat
  fileBytes : List Nat
  getData : Nat → Nat → Option (List Nat)
  timeDateStamp : Int

/-- A database sample row (`sample.sha256`, `sample.name`); digests and
names are opaque, only equality is used. -/
structure DbSample where
  sha256 : Nat
  name : Nat
deriving DecidableEq

/-- External collaborators (hashlib, libmagic, pefile tables). -/
structure Externals where
  md5 : List Nat → Nat
  filetype : List Nat → Option PyStr
  resourceTypeName : Nat → Option PyStr
  langOfId : Nat → Option PyStr
  sublangOf : Nat → Nat → PyStr

/-! ## Language / compiler heuristic (`language` command helpers) -/

/-- `get_iat(pe)`: the imported DLL names. -/
def get_iat (pe : PEFile) : List PyStr := pe.imports

/-- `check_module(iat, match)`: some imported DLL name contains `m`. -/
def check_module (iat : List PyStr) (m : PyStr) : Bool :=
  iat.any (fun imp => hasSubstr m imp)

/-- `is_packed(pe)`: some section's entropy strictly exceeds 7. -/
def is_packed (pe : PEFile) : Bool :=
  pe.sections.any (fun s => (7 : ℚ) < s.entropy)

/-- Character class of the `get_strings` regular expression
`[\x30-\x39\x41-\x5f\x61-\x7a\-\.:]`. -/
def isStrTokenChar (c : Char) : Bool :=
  (0x30 ≤ c.toNat && c.toNat ≤ 0x39) || (0x41 ≤ c.toNat && c.toNat ≤ 0x5f) ||
    (0x61 ≤ c.toNat && c.toNat ≤ 0x7a) || c == '-' || c == '.' || c == ':'

/-- Maximal runs of `isStrTokenChar` characters, left to right; the
second argument is the reversed run currently being accumulated. -/
def stringRuns : PyStr → List Char → List PyStr
  | [], acc => if acc.isEmpty then [] else [acc.reverse]
  | c :: rest, acc =>
    if isStrTokenChar c then stringRuns rest (c :: acc)
    else if acc.isEmpty then stringRuns rest []
    else acc.reverse :: stringRuns rest []

/-- `get_strings(content)`: `re.findall` of the class pattern with a
`{4,}` quantifier, i.e. the maximal class-character runs of length at
least 4. -/
def get_strings (content : PyStr) : List PyStr :=
  (stringRuns content []).filter (fun r => 4 ≤ r.length)

/-- The string scan of `is_cpp`: some extracted string contains
`type_info` or `RTTI` (the loop increments at most once and breaks). -/
def cppStrSignal (data : List PyStr) : Bool :=
  data.any (fun d => hasSubstr sTypeInfo d || hasSubstr sRTTI d)

/-- `is_cpp(data, cnt)`: increment `cnt` once if the string signal
fires, then test `cnt == 2`. -/
def is_cpp (data : List PyStr) (cnt : Nat) : Bool :=
  (if cppStrSignal data then cnt + 1 else cnt) == 2

/-- `is_delphi(data)`: some string contains `Borland` and, split on
backslashes, has a segment containing `Delphi`. -/
def is_delphi (data : List PyStr) : Bool :=
  data.any (fun d =>
    hasSubstr sBorland d &&
      (List.splitOn '\\' d).any (fun p => hasSubstr sDelphi p))

/-- `is_vbdotnet(data)`: some string contains `Compiler` and, split on
periods, has a segment equal to `VisualBasic`. -/
def is_vbdotnet (data : List PyStr) : Bool :=
  data.any (fun d =>
    hasSubstr sCompiler d &&
      (List.splitOn '.' d).any (fun p => p == sVisualBasic))

/-- `is_autoit(data)`: some string contains `AU3!`. -/
def is_autoit (data : List PyStr) : Bool :=
  data.any (fun d => hasSubstr sAU3 d)

/-- The labels `find_language` can report. -/
inductive Lang
  | visualBasic
  | dotNet
  | cpp
  | c
  | delphi
  | vbDotNet
  | autoIt
deriving DecidableEq

/-- `find_language(iat, sample, content)`: the label printed, if any.
The source sets `found = True` together with `dotnet = True` at the
`.NET` check, so the whole string-check block runs only when `dotnet`
is false; the `dotnet and is_vbdotnet(data)` branch is therefore kept
verbatim but is unreachable. -/
def find_language (iat : List PyStr) (content : PyStr) : Option Lang :=
  if check_module iat sVB then some .visualBasic
  else
    let dotnet := check_module iat sMscoree
    let c : Nat :=
      if !dotnet && (check_module iat sMsvcrLower || check_module iat sMsvcrUpper ||
          check_module iat sCplusplus) then 1 else 0
    if dotnet then some .dotNet
    else
      let data := get_strings content
      if is_cpp data c then some .cpp
      else if c == 1 then some .c
      else if !dotnet && is_delphi data then some .delphi
      else if dotnet && is_vbdotnet data then some .vbDotNet
      else if is_autoit data then some .autoIt
      else none

/-- Outcome of the `language` command on the session binary. -/
inductive LangOutcome
  | packedError
  | identified (l : Lang)
  | notIdentified
deriving DecidableEq

/-- The `language` command on the session binary: packed binaries fail
fast before `get_iat`/`find_language` run. -/
def languageCommand (pe : PEFile) (content : PyStr) : LangOutcome :=
  if is_packed pe then .packedError
  else
    match find_language (get_iat pe) content with
    | some l => .identified l
    | none => .notIdentified

/-- Per-sample message of the language `--scan` loop. -/
inductive LangMsg
  | packedErr
  | possible (l : Lang)
  | notIdentified
deriving DecidableEq

/-- The language `--scan` loop: every database sample is fetched (a
`none` fetch models a missing file or a `PEFormatError`) and classified
individually; there is no skip of the session file's own hash.  The
second component models the `matches` list the source initialises and
never appends to. -/
def languageScan (samples : List DbSample) (fetchPe : DbSample → Option PEFile)
    (contentOf : DbSample → PyStr) : List (Nat × LangMsg) × List (Nat × Nat) :=
  (samples.filterMap (fun s =>
    match fetchPe s with
    | none => none
    | some pe =>
      if is_packed pe then some (s.name, LangMsg.packedErr)
      else
        match find_language (get_iat pe) (contentOf s) with
        | some l => some (s.name, LangMsg.possible l)
        | none => some (s.name, LangMsg.notIdentified)),
   [])

/-! ## Compile-time command -/

/-- The matching rule of the `compiletime --scan` loop for one
candidate: exact `datetime` equality, or, when a window is configured
(`if arg_window:`, so a zero window is *not* configured), the delta in
whole minutes (`int(delta.total_seconds()) / 60`, Python 2 floor
division) is at most the window. -/
def compiletimeMatch (argWindow : Option Int) (t c : Int) : Bool :=
  if c = t then true
  else
    match argWindow with
    | none => false
    | some w =>
      if w = 0 then false
      else (((c - t).natAbs / 60 : Nat) : Int) ≤ w

/-- The `compiletime --scan` loop: rows are `(name, sha256, candidate
compile time)`; the session file's own hash is skipped, a `none` fetch
(missing file or parse failure) is skipped silently. -/
def compiletimeScan (primarySha : Nat) (t : Int) (argWindow : Option Int)
    (samples : List DbSample) (fetchTime : DbSample → Option Int) :
    List (Nat × Nat × Int) :=
  samples.filterMap (fun s =>
    if s.sha256 = primarySha then none
    else
      match fetchTime s with
      | none => none
      | some ct =>
        if compiletimeMatch argWindow t ct then some (s.name, s.sha256, ct) else none)

/-! ## Certificate (security) command -/

/-- `get_certificate(pe)`: `None` when the security directory's virtual
address is zero, otherwise `pe.write()[address+8:]` — the rebuilt file
bytes from `address + 8` to the end of the file (the declared `Size` is
read but unused by the source). -/
def get_certificate (pe : PEFile) : Option (List Nat) :=
  if pe.secDirAddress ≠ 0 then some (pe.fileBytes.drop (pe.secDirAddress + 8))
  else none

/-- The `security --scan` loop: rows `(name, sha256)`; skips the
session file's own hash, silently skips fetch failures, samples with no
certificate (`None` or empty bytes are both falsy) and non-matching
certificate MD5s. -/
def securityScan (ext : Externals) (primarySha : Nat) (certMd5 : Nat)
    (samples : List DbSample) (fetchPe : DbSample → Option PEFile) :
    List (Nat × Nat) :=
  samples.filterMap (fun s =>
    if s.sha256 = primarySha then none
    else
      match fetchPe s with
      | none => none
      | some pe =>
        match get_certificate pe with
        | none => none
        | some d =>
          if d.isEmpty then none
          else if ext.md5 d = certMd5 then some (s.name, s.sha256) else none)

/-! ## Imphash command -/

/-- The `imphash --scan` loop: rows `(name, sha256)`; `fetchImp` models
path lookup + `pefile.PE(path).get_imphash()` (an external
computation), with `none` a silent skip. -/
def imphashScan (primarySha : Nat) (primImp : Nat) (samples : List DbSample)
    (fetchImp : DbSample → Option Nat) : List (Nat × Nat) :=
  samples.filterMap (fun s =>
    if s.sha256 = primarySha then none
    else
      match fetchImp s with
      | none => none
      | some ih => if ih = primImp then some (s.name, s.sha256) else none)

/-! ## Imphash clustering (`imphash --cluster`) -/

/-- The cluster dictionary: imphash value ↦ list of `(sha256, name)`
entries in insertion order (Python `dict` keyed by the imphash). -/
abbrev ClusterMap := List (Nat × List (Nat × Nat))

/-- `cluster[h].append(e)`, creating the key if absent. -/
def clusterAdd (m : ClusterMap) (h : Nat) (e : Nat × Nat) : ClusterMap :=
  match m with
  | [] => [(h, [e])]
  | (k, v) :: rest =>
    if k = h then (k, v ++ [e]) :: rest else (k, v) :: clusterAdd rest h e

/-- Lookup of a key's member list (empty when the key is absent). -/
def clusterGet (m : ClusterMap) (h : Nat) : List (Nat × Nat) :=
  match m with
  | [] => []
  | (k, v) :: rest => if k = h then v else clusterGet rest h

/-- The keys of the cluster dictionary. -/
def clusterKeys (m : ClusterMap) : List Nat := m.map Prod.fst

/-- The cluster-building loop over the whole corpus (no skip of any
sample): fetch failures are silent skips. -/
def clusterBuildAux (fetchImp : DbSample → Option Nat) (m : ClusterMap) :
    List DbSample → ClusterMap
  | [] => m
  | s :: rest =>
    match fetchImp s with
    | none => clusterBuildAux fetchImp m rest
    | some h => clusterBuildAux fetchImp (clusterAdd m h (s.sha256, s.name)) rest

/-- The full cluster dictionary over the corpus. -/
def clusterBuild (samples : List DbSample) (fetchImp : DbSample → Option Nat) :
    ClusterMap :=
  clusterBuildAux fetchImp [] samples

/-- The reported clusters: singleton clusters (`len(value) == 1`) are
skipped. -/
def clusterReport (samples : List DbSample) (fetchImp : DbSample → Option Nat) :
    ClusterMap :=
  (clusterBuild samples fetchImp).filter (fun kv => kv.2.length ≠ 1)

/-! ## Resource extractor (`resources` command) -/

/-- The closure state of `get_resources`: the `--open` / `--dump`
argument values, whether the instance being processed is the session
file's own PE object (`pe == self.pe`; a freshly parsed corpus
candidate is never the same object), the session file's MD5 hex string
and the `tempfile.mkdtemp()` result. -/
structure ResCfg where
  argOpen : Option Int
  argDump : Option PyStr
  isSession : Bool
  sessionMd5 : PyStr
  tmpdir : PyStr

/-- The dump gate of `get_resources`:
`(arg_open or arg_dump) and pe == self.pe`. -/
def dumpCond (cfg : ResCfg) : Bool :=
  (pyTruthyInt cfg.argOpen || pyTruthyStr cfg.argDump) && cfg.isSession

/-- `folder = arg_dump if arg_dump else tempfile.mkdtemp()`. -/
def dumpFolder (cfg : ResCfg) : PyStr :=
  match cfg.argDump with
  | some s => if s.isEmpty then cfg.tmpdir else s
  | none => cfg.tmpdir

/-- A dump destination, modelling
`os.path.join(folder, '{md5}_{offset}_{name}')` componentwise (the
format is an injective rendering of these fields). -/
structure DumpPath where
  folder : PyStr
  fileMd5 : PyStr
  offset : Nat
  resName : PyStr
deriving DecidableEq

/-- A file written to disk by the resource dumper. -/
structure FileWrite where
  path : DumpPath
  data : List Nat
deriving DecidableEq

/-- One row of the `get_resources` result,
`[count, name, offset, md5, size, filetype, language, sublanguage]`
plus the appended dump path when dumping fired. -/
structure ResRecord where
  idx : Nat
  rname : PyStr
  offset : Nat
  md5v : Nat
  rsize : Nat
  ftype : Option PyStr
  rlang : Option PyStr
  rsublang : PyStr
  dumped : Option DumpPath
deriving DecidableEq

/-- Accumulated state of the `get_resources` traversal: records,
file writes, the flat 1-based `count`, and the number of
`print_error(e)` messages emitted by the per-type exception handler. -/
structure ResAcc where
  recs : List ResRecord
  writes : List FileWrite
  count : Nat
  errors : Nat
deriving DecidableEq

/-- The name of a type-level entry: `str(resource_type.name)` when set,
else `str(pefile.RESOURCE_TYPE.get(Id))` (which is the string `None`
when the external table has no entry; the source's later
`if name == None` comparison with the string is never true and is
dead code). -/
def resTypeName (ext : Externals) (rt : ResType) : PyStr :=
  match rt.tname with
  | some n => n
  | none =>
    match ext.resourceTypeName rt.tid with
    | some n => n
    | none => sNone

/-- Process one language-level leaf.  A `none` from `getData` models
the pefile exception, reported as `true` in the second component so the
enclosing per-type handler can abort the rest of the type. -/
def processLeaf (ext : Externals) (pe : PEFile) (cfg : ResCfg) (rname : PyStr)
    (acc : ResAcc) (l : ResLang) : ResAcc × Bool :=
  match pe.getData l.offsetToData l.dsize with
  | none => (acc, true)
  | some data =>
    let dp : Option DumpPath :=
      if dumpCond cfg then
        some ⟨dumpFolder cfg, cfg.sessionMd5, l.offsetToData, rname⟩
      else none
    let r : ResRecord :=
      ⟨acc.count, rname, l.offsetToData, ext.md5 data, l.dsize, ext.filetype data,
        ext.langOfId l.langId, ext.sublangOf l.langId l.sublangId, dp⟩
    let ws :=
      match dp with
      | some p => acc.writes ++ [⟨p, data⟩]
      | none => acc.writes
    ({ recs := acc.recs ++ [r], writes := ws, count := acc.count + 1,
       errors := acc.errors }, false)

/-- Process the language-level entries of one id-level directory,
stopping at the first exception. -/
def processLangs (ext : Externals) (pe : PEFile) (cfg : ResCfg) (rname : PyStr) :
    List ResLang → ResAcc → ResAcc × Bool
  | [], acc => (acc, false)
  | l :: rest, acc =>
    match processLeaf ext pe cfg rname acc l with
    | (acc1, true) => (acc1, true)
    | (acc1, false) => processLangs ext pe cfg rname rest acc1

/-- Process the id-level entries of one type-level directory; ids with
no sub-directory are skipped (`hasattr` check). -/
def processIds (ext : Externals) (pe : PEFile) (cfg : ResCfg) (rname : PyStr) :
    List ResId → ResAcc → ResAcc × Bool
  | [], acc => (acc, false)
  | i :: rest, acc =>
    match i.directory with
    | none => processIds ext pe cfg rname rest acc
    | some langs =>
      match processLangs ext pe cfg rname langs acc with
      | (acc1, true) => (acc1, true)
      | (acc1, false) => processIds ext pe cfg rname rest acc1

/-- Process one type-level entry; the surrounding `try`/`except` turns
an exception into a `print_error` and continues with the next type. -/
def processType (ext : Externals) (pe : PEFile) (cfg : ResCfg) (acc : ResAcc)
    (rt : ResType) : ResAcc :=
  let rname := resTypeName ext rt
  match rt.directory with
  | none => acc
  | some ids =>
    match processIds ext pe cfg rname ids acc with
    | (acc1, true) => { acc1 with errors := acc1.errors + 1 }
    | (acc1, false) => acc1

/-- `get_resources(pe)`: the full three-level traversal with the flat
counter starting at 1. -/
def get_resources (ext : Externals) (pe : PEFile) (cfg : ResCfg) : ResAcc :=
  match pe.resourceDir with
  | none => ⟨[], [], 1, 0⟩
  | some types => types.foldl (processType ext pe cfg) ⟨[], [], 1, 0⟩

/-- One iteration of the `resources --scan` loop: skip the session
file's own hash, silently skip fetch failures, extract the candidate's
resources with the *same* closure arguments but a PE object that is not
the session object, and collect `resource[2]` (the offset column) of
every primary record equal, in that column, to a candidate record. -/
def resScanStep (ext : Externals) (primarySha : Nat) (primaryRes : List ResRecord)
    (argDump : Option PyStr) (fetchPe : DbSample → Option PEFile)
    (sessionMd5 tmpdir : PyStr) (s : DbSample) :
    Option (Nat × Nat × List Nat) × List FileWrite :=
  if s.sha256 = primarySha then (none, [])
  else
    match fetchPe s with
    | none => (none, [])
    | some pe =>
      let a := get_resources ext pe ⟨none, argDump, false, sessionMd5, tmpdir⟩
      let matched := a.recs.flatMap (fun cur =>
        primaryRes.filterMap (fun r =>
          if cur.offset = r.offset then some r.offset else none))
      (if matched.isEmpty then none else some (s.name, s.sha256, matched), a.writes)

/-- The `resources --scan` loop: match rows `(name, sha256, matched
column values)` and all file writes performed while visiting
candidates. -/
def resourcesScan (ext : Externals) (primarySha : Nat) (primaryRes : List ResRecord)
    (argDump : Option PyStr) (samples : List DbSample)
    (fetchPe : DbSample → Option PEFile) (sessionMd5 tmpdir : PyStr) :
    List (Nat × Nat × List Nat) × List FileWrite :=
  let steps := samples.map
    (resScanStep ext primarySha primaryRes argDump fetchPe sessionMd5 tmpdir)
  (steps.filterMap Prod.fst, (steps.map Prod.snd).flatten)

/-- Observable outcome of the `resources` command. -/
structure ResourcesOutcome where
  records : List ResRecord
  opened : Option DumpPath
  errors : Nat
  warnedNoResources : Bool
  scanRows : List (Nat × Nat × List Nat)
  writes : List FileWrite

/-- The `resources` command: extract the session file's resources (the
session PE *is* `self.pe`); warn and stop when none were found;
otherwise, when `--open` was given (truthy), open a session on the dump
path of the first record whose `#` column equals the argument — or fall
through silently when none does (`--scan` sits on an `elif` and does
not run); when `--scan` was given, run the corpus scan. -/
def resourcesCommand (ext : Externals) (pe : PEFile) (argOpen : Option Int)
    (argDump : Option PyStr) (argScan : Bool) (sessionMd5 tmpdir : PyStr)
    (primarySha : Nat) (samples : List DbSample)
    (fetchPe : DbSample → Option PEFile) : ResourcesOutcome :=
  let a := get_resources ext pe ⟨argOpen, argDump, true, sessionMd5, tmpdir⟩
  if a.recs.isEmpty then
    ⟨a.recs, none, a.errors, true, [], a.writes⟩
  else if pyTruthyInt argOpen then
    match a.recs.find? (fun r => (r.idx : Int) == argOpen.getD 0) with
    | some r => ⟨a.recs, r.dumped, a.errors, false, [], a.writes⟩
    | none => ⟨a.recs, none, a.errors, false, [], a.writes⟩
  else if argScan then
    let sc := resourcesScan ext primarySha a.recs argDump samples fetchPe
      sessionMd5 tmpdir
    ⟨a.recs, none, a.errors, false, sc.1, a.writes ++ sc.2⟩
  else ⟨a.recs, none, a.errors, false, [], a.writes⟩

/-! ## Concrete instances used by witnesses and counterexamples -/

def c1ext : Externals :=
  ⟨fun d => d.foldl (fun a b => 256 * a + b + 1) 7, fun _ => none, fun _ => none,
    fun _ => none, fun _ _ => []⟩

def c1primary : PEFile where
  sections := []
  imports := []
  resourceDir := some [⟨none, 1, some [⟨some [⟨100, 1, 0, 0⟩]⟩]⟩]
  secDirAddress := 0
  secDirSize := 0
  fileBytes := []
  getData := fun off _ => if off = 100 then some [0] else none
  timeDateStamp := 0

def c1cand : PEFile where
  sections := []
  imports := []
  resourceDir := some [⟨none, 1, some [⟨some [⟨100, 1, 0, 0⟩]⟩]⟩]
  secDirAddress := 0
  secDirSize := 0
  fileBytes := []
  getData := fun off _ => if off = 100 then some [1] else none
  timeDateStamp := 0

def c1primRes : List ResRecord :=
  (get_resources c1ext c1primary ⟨none, none, true, [], []⟩).recs

def c3pe : PEFile where
  sections := []
  imports := []
  resourceDir := none
  secDirAddress := 4
  secDirSize := 8
  fileBytes := List.replicate 20 0
  getData := fun _ _ => none
  timeDateStamp := 0

def c3end : PEFile where
  sections := []
  imports := []
  resourceDir := none
  secDirAddress := 4
  secDirSize := 16
  fileBytes := List.replicate 20 0
  getData := fun _ _ => none
  timeDateStamp := 0

def c4dll : PyStr := "msvcrt.dll".toList

def c4content : PyStr := "hello".toList

def c4pe : PEFile where
  sections := [⟨1⟩]
  imports := [c4dll]
  resourceDir := none
  secDirAddress := 0
  secDirSize := 0
  fileBytes := []
  getData := fun _ _ => none
  timeDateStamp := 0

def c5packedPe : PEFile where
  sections := [⟨8⟩]
  imports := []
  resourceDir := none
  secDirAddress := 0
  secDirSize := 0
  fileBytes := []
  getData := fun _ _ => none
  timeDateStamp := 0

def c5cleanPe : PEFile where
  sections := [⟨1⟩]
  imports := []
  resourceDir := none
  secDirAddress := 0
  secDirSize := 0
  fileBytes := []
  getData := fun _ _ => none
  timeDateStamp := 0

def c6ext : Externals :=
  ⟨fun d => d.length, fun _ => none, fun _ => none, fun _ => none, fun _ _ => []⟩

def c6candPe : PEFile where
  sections := []
  imports := []
  resourceDir := some [⟨none, 1, some [⟨some [⟨100, 1, 0, 0⟩]⟩]⟩]
  secDirAddress := 4
  secDirSize := 16
  fileBytes := List.replicate 20 0
  getData := fun off _ => if off = 100 then some [3] else none
  timeDateStamp := 0

def c6samples : List DbSample := [⟨1, 10⟩, ⟨2, 20⟩]

def c6primRes : List ResRecord := [⟨1, [], 100, 0, 1, none, none, [], none⟩]

def c7dll : PyStr := "msvcrt.dll".toList

def c7iat : List PyStr := [c7dll]

def c8samples : List DbSample := [⟨1, 11⟩, ⟨2, 22⟩, ⟨3, 33⟩]

def c8fetch : DbSample → Option Nat :=
  fun s => if s.sha256 = 3 then some 9 else some 5

def c9ext : Externals :=
  ⟨fun d => d.length, fun _ => none, fun _ => none, fun _ => none, fun _ _ => []⟩

def c9dumpDir : PyStr := "dumpdir".toList

def c9pe : PEFile where
  sections := []
  imports := []
  resourceDir := some [⟨none, 1, some [⟨some [⟨100, 1, 0, 0⟩]⟩]⟩]
  secDirAddress := 0
  secDirSize := 0
  fileBytes := []
  getData := fun off _ => if off = 100 then some [3] else none
  timeDateStamp := 0

def c10ext : Externals :=
  ⟨fun d => d.length, fun _ => none, fun _ => none, fun _ => none, fun _ _ => []⟩

def c10pe : PEFile where
  sections := []
  imports := []
  resourceDir := some [⟨none, 3, some [⟨some [⟨50, 2, 0, 0⟩]⟩]⟩]
  secDirAddress := 0
  secDirSize := 0
  fileBytes := []
  getData := fun off sz => if off = 50 && sz = 2 then some [1, 2] else none
  timeDateStamp := 0

/-! ## Theorems -/

/-- C2 counterexample: with a one-minute window and primary timestamp
0, a candidate at `T + 1*60 + 1 = 61` seconds *is* reported as a match
by the code (`int(61)/60 = 1 <= 1` under floor division), refuting the
claim that a candidate one second beyond the window boundary is not a
match. -/
theorem compiletime_boundary_counterexample :
    compiletimeMatch (some 1) 0 61 = true := by decide

/-- C2 (amended): with a window of `w > 0` minutes configured, a
candidate timestamp `C` matches primary timestamp `T` iff `C = T` or
the absolute delta in whole (floored) minutes is at most `w`, i.e.
`|T - C| ≤ 60*w + 59` seconds. -/
theorem compiletimeMatch_window_iff (w t c : Int) (hw : 0 < w) :
    compiletimeMatch (some w) t c = true ↔
      (c = t ∨ ((c - t).natAbs : Int) ≤ 60 * w + 59) := by
  unfold compiletimeMatch
  by_cases h : c = t
  · simp [h]
  · have hw0 : ¬ w = 0 := by omega
    simp only [h, if_false, hw0, decide_eq_true_eq, false_or]
    omega

/-- C2 witness: the amended rule instantiated at the window boundary. -/
theorem compiletimeMatch_window_iff_witness :
    (0 : Int) < 1 ∧
      (compiletimeMatch (some 1) 0 61 = true ↔
        ((61 : Int) = 0 ∨ (((61 : Int) - 0).natAbs : Int) ≤ 60 * 1 + 59)) :=
  ⟨by decide, compiletimeMatch_window_iff 1 0 61 (by decide)⟩

/-- C3 counterexample: a binary whose security directory declares
`address = 4`, `size = 8` inside a 20-byte file: the code returns the
16 bytes from offset 12 to the end of the file, not `size - 8 = 0`
bytes, refuting the claim that the returned length is always
`size - 8`. -/
theorem get_certificate_size_counterexample :
    c3pe.secDirAddress ≠ 0 ∧
      (get_certificate c3pe).map List.length ≠ some (c3pe.secDirSize - 8) := by
  decide

/-- C3 (amended): for a nonzero security-directory address the
extractor returns the file bytes from `address + 8` to the end of the
file, so the returned length is `fileLength - (address + 8)`; this
equals the declared `size - 8` exactly when the certificate table
extends to the end of the file (`address + size = fileLength`). -/
theorem get_certificate_tail (pe : PEFile) (h : pe.secDirAddress ≠ 0) :
    (get_certificate pe).map List.length =
        some (pe.fileBytes.length - (pe.secDirAddress + 8)) ∧
      (pe.secDirAddress + pe.secDirSize = pe.fileBytes.length →
        (get_certificate pe).map List.length = some (pe.secDirSize - 8)) := by
  constructor
  · simp [get_certificate, h]
  · intro hend
    simp [get_certificate, h]
    omega

/-- C3 witness: a binary whose certificate table ends exactly at the
end of the file yields length `size - 8`. -/
theorem get_certificate_tail_witness :
    c3end.secDirAddress ≠ 0 ∧
      (get_certificate c3end).map List.length = some (c3end.secDirSize - 8) :=
  ⟨by decide, (get_certificate_tail c3end (by decide)).2 (by decide)⟩

/-- C4 counterexample: a corpus candidate whose derivable label is
identical to the primary's (both classify as C) is classified and
printed individually by the scan, but the scan's match list is empty —
the candidate is never "reported as a match", refuting the claimed
label-equality matching rule. -/
theorem language_scan_equal_label_not_matched :
    languageCommand c4pe c4content = .identified .c ∧
      (languageScan [⟨2, 20⟩] (fun _ => some c4pe) (fun _ => c4content)).1 =
        [(20, .possible .c)] ∧
      (languageScan [⟨2, 20⟩] (fun _ => some c4pe) (fun _ => c4content)).2 = [] := by
  decide

/-- C4 (amended): the language `--scan` performs no comparison against
the primary's label at all — it classifies and reports each corpus
candidate individually, and its match list is the empty list on every
input. -/
theorem language_scan_matches_empty (samples : List DbSample)
    (fetchPe : DbSample → Option PEFile) (contentOf : DbSample → PyStr) :
    (languageScan samples fetchPe contentOf).2 = [] := rfl

/-- C5: if some section's entropy strictly exceeds 7, the `language`
command reports the packed failure without evaluating the heuristic
chain (the outcome is `packedError` whatever `find_language` would
return); if no section exceeds the threshold, the outcome is exactly
the heuristic chain's result. -/
theorem language_packed_gate (pe : PEFile) (content : PyStr) :
    ((∃ s ∈ pe.sections, (7 : ℚ) < s.entropy) →
        languageCommand pe content = .packedError) ∧
      ((∀ s ∈ pe.sections, s.entropy ≤ (7 : ℚ)) →
        languageCommand pe content =
          match find_language (get_iat pe) content with
          | some l => .identified l
          | none => .notIdentified) := by
  constructor
  · rintro ⟨s, hs, hlt⟩
    have hp : is_packed pe = true := by
      simp only [is_packed, List.any_eq_true, decide_eq_true_eq]
      exact ⟨s, hs, hlt⟩
    simp [languageCommand, hp]
  · intro hall
    have hp : is_packed pe = false := by
      simp only [is_packed, List.any_eq_false, decide_eq_true_eq, not_lt]
      exact hall
    simp [languageCommand, hp]

/-- C5 witness: a binary with a section of entropy 8 fails fast as
packed; a binary with all sections at entropy 1 reaches the heuristic
chain. -/
theorem language_packed_gate_witness :
    (∃ s ∈ c5packedPe.sections, (7 : ℚ) < s.entropy) ∧
      languageCommand c5packedPe [] = .packedError ∧
      (∀ s ∈ c5cleanPe.sections, s.entropy ≤ (7 : ℚ)) ∧
      languageCommand c5cleanPe [] = .notIdentified :=
  have h1 : ∃ s ∈ c5packedPe.sections, (7 : ℚ) < s.entropy := by decide
  have h2 : ∀ s ∈ c5cleanPe.sections, s.entropy ≤ (7 : ℚ) := by decide
  ⟨h1, (language_packed_gate c5packedPe []).1 h1, h2,
    ((language_packed_gate c5cleanPe []).2 h2).trans (by decide)⟩

/-- C7: in a non-packed binary where neither the VB rule nor the .NET
rule fired, the heuristic labels Cpp iff both the DLL-based C-family
check (`msvcr`/`MSVCR`/`c++` in an imported DLL name) and the
string-based signal (`type_info` or `RTTI` in an extracted string)
fire, and labels C iff the DLL-based check fired alone. -/
theorem find_language_cpp_c (iat : List PyStr) (content : PyStr)
    (hvb : check_module iat sVB = false)
    (hnet : check_module iat sMscoree = false) :
    (find_language iat content = some .cpp ↔
        ((check_module iat sMsvcrLower || check_module iat sMsvcrUpper ||
            check_module iat sCplusplus) = true ∧
          cppStrSignal (get_strings content) = true)) ∧
      (find_language iat content = some .c ↔
        ((check_module iat sMsvcrLower || check_module iat sMsvcrUpper ||
            check_module iat sCplusplus) = true ∧
          cppStrSignal (get_strings content) = false)) := by
  unfold find_language
  rw [hvb, hnet]
  cases hc : (check_module iat sMsvcrLower || check_module iat sMsvcrUpper ||
      check_module iat sCplusplus) <;>
    cases hs : cppStrSignal (get_strings content) <;>
      cases hd : is_delphi (get_strings content) <;>
        cases ha : is_autoit (get_strings content) <;>
          simp [is_cpp, hs, hd, ha]

/-- C7 witness: an import table containing `msvcrt.dll` with content
containing `type_info` labels Cpp. -/
theorem find_language_cpp_c_witness :
    check_module c7iat sVB = false ∧ check_module c7iat sMscoree = false ∧
      find_language c7iat sTypeInfo = some .cpp :=
  ⟨by decide, by decide,
    ((find_language_cpp_c c7iat sTypeInfo (by decide) (by decide)).1).mpr
      ⟨by decide, by decide⟩⟩

/-- C1: the `resources --scan` loop compares and reports column 2 of
the record `[count, name, offset, md5, ...]` — the *offset* column —
although the output header labels the reported column `Resource MD5`.
Evaluated here: the primary has a single resource at offset 100 with
MD5 1793, the candidate a single resource at the same offset with a
*different* MD5 1794; the hash sets are disjoint, yet the candidate is
reported as a match and the detail carries the offset value 100. -/
theorem resources_scan_compares_offsets :
    (resourcesScan c1ext 1 c1primRes none [⟨2, 20⟩] (fun _ => some c1cand)
        [] []).1 = [(20, 2, [100])] ∧
      c1primRes.map (fun r => r.md5v) = [1793] ∧
      ((get_resources c1ext c1cand ⟨none, none, false, [], []⟩).recs.map
        (fun r => r.md5v)) = [1794] := by
  decide

/-- C6 counterexample: the language `--scan` loop has no skip of the
session file's own hash.  With the session file's sha256 being 1, the
corpus entry `⟨1, 10⟩` — the primary itself — is still fetched,
classified and reported on by the scan instead of being skipped. -/
theorem language_scan_visits_primary :
    (languageScan [⟨1, 10⟩] (fun _ => some c6candPe) (fun _ => [])).1 =
      [(10, .notIdentified)] := by
  decide

/-- C6 (amended): the compile-time, imphash, resources and certificate
scans skip the corpus entry whose sha256 equals the primary's, so no
match row of those four scans ever carries the primary's hash; the
language scan performs no such exclusion. -/
theorem scans_skip_primary (primarySha : Nat) (t : Int) (win : Option Int)
    (samples : List DbSample) (ftime : DbSample → Option Int) (primImp : Nat)
    (fimp : DbSample → Option Nat) (ext : Externals) (certMd5 : Nat)
    (fpe : DbSample → Option PEFile) (primaryRes : List ResRecord)
    (argDump : Option PyStr) (m tdir : PyStr) :
    (∀ row ∈ compiletimeScan primarySha t win samples ftime,
        row.2.1 ≠ primarySha) ∧
      (∀ row ∈ imphashScan primarySha primImp samples fimp,
        row.2 ≠ primarySha) ∧
      (∀ row ∈ (resourcesScan ext primarySha primaryRes argDump samples fpe
          m tdir).1, row.2.1 ≠ primarySha) ∧
      (∀ row ∈ securityScan ext primarySha certMd5 samples fpe,
        row.2 ≠ primarySha) := by
  refine ⟨?_, ?_, ?_, ?_⟩
  · intro row hrow
    simp only [compiletimeScan, List.mem_filterMap] at hrow
    obtain ⟨s, hs, heq⟩ := hrow
    by_cases h : s.sha256 = primarySha
    · simp [h] at heq
    · rw [if_neg h] at heq
      cases hft : ftime s with
      | none => rw [hft] at heq; simp at heq
      | some ct =>
        rw [hft] at heq
        simp at heq
        obtain ⟨-, rfl⟩ := heq
        exact h
  · intro row hrow
    simp only [imphashScan, List.mem_filterMap] at hrow
    obtain ⟨s, hs, heq⟩ := hrow
    by_cases h : s.sha256 = primarySha
    · simp [h] at heq
    · rw [if_neg h] at heq
      cases hft : fimp s with
      | none => rw [hft] at heq; simp at heq
      | some ih =>
        rw [hft] at heq
        simp at heq
        obtain ⟨-, rfl⟩ := heq
        exact h
  · intro row hrow
    simp only [resourcesScan, List.mem_filterMap, List.mem_map] at hrow
    obtain ⟨x, ⟨s, hs, hx⟩, hfst⟩ := hrow
    subst hx
    simp only [resScanStep] at hfst
    by_cases h : s.sha256 = primarySha
    · simp [h] at hfst
    · rw [if_neg h] at hfst
      cases hpe : fpe s with
      | none => rw [hpe] at hfst; simp at hfst
      | some pe =>
        rw [hpe] at hfst
        simp at hfst
        obtain ⟨-, rfl⟩ := hfst
        exact h
  · intro row hrow
    simp only [securityScan, List.mem_filterMap] at hrow
    obtain ⟨s, hs, heq⟩ := hrow
    by_cases h : s.sha256 = primarySha
    · simp [h] at heq
    · rw [if_neg h] at heq
      cases hpe : fpe s with
      | none => rw [hpe] at heq; simp at heq
      | some pe =>
        rw [hpe] at heq
        simp only [] at heq
        cases hcert : get_certificate pe with
        | none => rw [hcert] at heq; simp at heq
        | some d =>
          rw [hcert] at heq
          simp at heq
          obtain ⟨-, -, rfl⟩ := heq
          exact h

/-- C6 witness: on a concrete corpus `[⟨1,10⟩, ⟨2,20⟩]` with the
primary's sha256 = 1, each of the four scans reports only the
candidate with sha256 = 2, whose hash is not the primary's. -/
theorem scans_skip_primary_witness :
    ((20, 2, (0 : Int)) ∈ compiletimeScan 1 0 none c6samples (fun _ => some 0) ∧
        (2 : Nat) ≠ 1) ∧
      (((20 : Nat), (2 : Nat)) ∈ imphashScan 1 5 c6samples (fun _ => some 5) ∧
        (2 : Nat) ≠ 1) ∧
      ((20, 2, [100]) ∈ (resourcesScan c6ext 1 c6primRes none c6samples
          (fun _ => some c6candPe) [] []).1 ∧ (2 : Nat) ≠ 1) ∧
      (((20 : Nat), (2 : Nat)) ∈ securityScan c6ext 1 8 c6samples
          (fun _ => some c6candPe) ∧ (2 : Nat) ≠ 1) :=
  have h := scans_skip_primary 1 0 none c6samples (fun _ => some 0) 5
    (fun _ => some 5) c6ext 8 (fun _ => some c6candPe) c6primRes none [] []
  ⟨⟨by decide, h.1 (20, 2, 0) (by decide)⟩,
    ⟨by decide, h.2.1 (20, 2) (by decide)⟩,
    ⟨by decide, h.2.2.1 (20, 2, [100]) (by decide)⟩,
    ⟨by decide, h.2.2.2 (20, 2) (by decide)⟩⟩

/-- When the dump gate is off, a leaf adds no file write. -/
theorem processLeaf_writes_of_not_dump (ext : Externals) (pe : PEFile)
    (cfg : ResCfg) (rname : PyStr) (acc : ResAcc) (l : ResLang)
    (hdc : dumpCond cfg = false) :
    ((processLeaf ext pe cfg rname acc l).1).writes = acc.writes := by
  unfold processLeaf
  cases pe.getData l.offsetToData l.dsize <;> simp [hdc]

/-- When the dump gate is off, the language-level loop adds no file
write. -/
theorem processLangs_writes_of_not_dump (ext : Externals) (pe : PEFile)
    (cfg : ResCfg) (rname : PyStr) (hdc : dumpCond cfg = false) :
    ∀ (ls : List ResLang) (acc : ResAcc),
      ((processLangs ext pe cfg rname ls acc).1).writes = acc.writes := by
  intro ls
  induction ls with
  | nil => intro acc; simp [processLangs]
  | cons l rest ih =>
    intro acc
    simp only [processLangs]
    rcases hpl : processLeaf ext pe cfg rname acc l with ⟨acc1, b⟩
    have hw : acc1.writes = acc.writes := by
      have := processLeaf_writes_of_not_dump ext pe cfg rname acc l hdc
      rw [hpl] at this
      exact this
    cases b
    · rw [ih acc1, hw]
    · exact hw

/-- When the dump gate is off, the id-level loop adds no file write. -/
theorem processIds_writes_of_not_dump (ext : Externals) (pe : PEFile)
    (cfg : ResCfg) (rname : PyStr) (hdc : dumpCond cfg = false) :
    ∀ (ids : List ResId) (acc : ResAcc),
      ((processIds ext pe cfg rname ids acc).1).writes = acc.writes := by
  intro ids
  induction ids with
  | nil => intro acc; simp [processIds]
  | cons i rest ih =>
    intro acc
    simp only [processIds]
    split
    · exact ih acc
    · rename_i langs hdir
      split
      · rename_i acc1 heq
        have h2 := processLangs_writes_of_not_dump ext pe cfg rname hdc langs acc
        rw [heq] at h2
        exact h2
      · rename_i acc1 heq
        have h2 := processLangs_writes_of_not_dump ext pe cfg rname hdc langs acc
        rw [heq] at h2
        rw [ih acc1]
        exact h2

/-- When the dump gate is off, a type-level entry adds no file write. -/
theorem processType_writes_of_not_dump (ext : Externals) (pe : PEFile)
    (cfg : ResCfg) (acc : ResAcc) (rt : ResType) (hdc : dumpCond cfg = false) :
    (processType ext pe cfg acc rt).writes = acc.writes := by
  unfold processType
  split
  · rfl
  · rename_i ids hdir
    dsimp only
    split
    · rename_i acc1 heq
      have h2 := processIds_writes_of_not_dump ext pe cfg (resTypeName ext rt)
        hdc ids acc
      rw [heq] at h2
      simpa using h2
    · rename_i acc1 heq
      have h2 := processIds_writes_of_not_dump ext pe cfg (resTypeName ext rt)
        hdc ids acc
      rw [heq] at h2
      exact h2

/-- When the dump gate is off, the whole type-level fold adds no file
write. -/
theorem foldl_processType_writes_of_not_dump (ext : Externals) (pe : PEFile)
    (cfg : ResCfg) (hdc : dumpCond cfg = false) :
    ∀ (types : List ResType) (acc : ResAcc),
      (types.foldl (processType ext pe cfg) acc).writes = acc.writes := by
  intro types
  induction types with
  | nil => intro acc; rfl
  | cons rt rest ih =>
    intro acc
    rw [List.foldl_cons, ih, processType_writes_of_not_dump ext pe cfg acc rt hdc]

/-- A `get_resources` call on a PE object that is not the session
object performs no file write, whatever the `--open`/`--dump`
arguments are. -/
theorem get_resources_writes_of_not_session (ext : Externals) (pe : PEFile)
    (cfg : ResCfg) (h : cfg.isSession = false) :
    (get_resources ext pe cfg).writes = [] := by
  have hdc : dumpCond cfg = false := by simp [dumpCond, h]
  unfold get_resources
  cases pe.resourceDir with
  | none => rfl
  | some types =>
    rw [foldl_processType_writes_of_not_dump ext pe cfg hdc]

/-- One `resources --scan` iteration performs no file write. -/
theorem resScanStep_writes (ext : Externals) (primarySha : Nat)
    (primaryRes : List ResRecord) (argDump : Option PyStr)
    (fetchPe : DbSample → Option PEFile) (sessionMd5 tmpdir : PyStr)
    (s : DbSample) :
    (resScanStep ext primarySha primaryRes argDump fetchPe sessionMd5 tmpdir
      s).2 = [] := by
  unfold resScanStep
  by_cases h : s.sha256 = primarySha
  · simp [h]
  · rw [if_neg h]
    cases hpe : fetchPe s with
    | none => rfl
    | some pe =>
      simp only []
      exact get_resources_writes_of_not_session ext pe
        ⟨none, argDump, false, sessionMd5, tmpdir⟩ rfl

/-- C9: resource bytes are written to disk only for the session binary:
a `get_resources` call on a non-session PE object writes nothing even
when `--open`/`--dump` are set, and the `resources --scan` loop over
corpus candidates performs no file write at all. -/
theorem resources_dump_only_primary (ext : Externals) (pe : PEFile)
    (cfg : ResCfg) (primarySha : Nat) (primaryRes : List ResRecord)
    (argDump : Option PyStr) (samples : List DbSample)
    (fpe : DbSample → Option PEFile) (m tdir : PyStr) :
    (cfg.isSession = false → (get_resources ext pe cfg).writes = []) ∧
      (resourcesScan ext primarySha primaryRes argDump samples fpe m
        tdir).2 = [] := by
  constructor
  · exact get_resources_writes_of_not_session ext pe cfg
  · simp only [resourcesScan]
    induction samples with
    | nil => rfl
    | cons s rest ih =>
      simp only [List.map_cons, List.flatten_cons, ih,
        resScanStep_writes ext primarySha primaryRes argDump fpe m tdir s]
      simp

/-- C9 witness: a non-session extraction with `--dump` set writes
nothing, and a scan over a candidate with resources writes nothing. -/
theorem resources_dump_only_primary_witness :
    (ResCfg.isSession ⟨none, some c9dumpDir, false, [], []⟩ = false) ∧
      (get_resources c9ext c9pe ⟨none, some c9dumpDir, false, [], []⟩).writes =
        [] ∧
      (resourcesScan c9ext 1 [] (some c9dumpDir) [⟨2, 20⟩]
        (fun _ => some c9pe) [] []).2 = [] :=
  have h := resources_dump_only_primary c9ext c9pe
    ⟨none, some c9dumpDir, false, [], []⟩ 1 [] (some c9dumpDir) [⟨2, 20⟩]
    (fun _ => some c9pe) [] []
  ⟨rfl, h.1 rfl, h.2⟩

/-- C10: a `resources --open N` request whose index `N` matches no
extracted record's `#` column falls out of the open loop silently: no
new session is opened and the only errors reported are those of the
extraction itself (none are added by the open handling). -/
theorem resources_open_absent_index (ext : Externals) (pe : PEFile) (n : Int)
    (argDump : Option PyStr) (argScan : Bool) (sessionMd5 tmpdir : PyStr)
    (primarySha : Nat) (samples : List DbSample)
    (fpe : DbSample → Option PEFile) (hn : n ≠ 0)
    (hmiss : ∀ r ∈ (get_resources ext pe
        ⟨some n, argDump, true, sessionMd5, tmpdir⟩).recs, (r.idx : Int) ≠ n) :
    (resourcesCommand ext pe (some n) argDump argScan sessionMd5 tmpdir
        primarySha samples fpe).opened = none ∧
      (resourcesCommand ext pe (some n) argDump argScan sessionMd5 tmpdir
        primarySha samples fpe).errors =
        (get_resources ext pe
          ⟨some n, argDump, true, sessionMd5, tmpdir⟩).errors := by
  unfold resourcesCommand
  by_cases he :
    (get_resources ext pe ⟨some n, argDump, true, sessionMd5, tmpdir⟩).recs.isEmpty
  · simp [he]
  · have hopen : pyTruthyInt (some n) = true := by
      simp [pyTruthyInt, hn]
    have hfind :
        (get_resources ext pe
          ⟨some n, argDump, true, sessionMd5, tmpdir⟩).recs.find?
          (fun r => (r.idx : Int) == n) = none := by
      apply List.find?_eq_none.mpr
      intro r hr
      simpa using hmiss r hr
    simp [he, hopen, hfind]

/-- C10 witness: a binary with one resource (index 1) and an open
request for index 5: no session is opened and no error is reported. -/
theorem resources_open_absent_index_witness :
    ((5 : Int) ≠ 0) ∧
      (∀ r ∈ (get_resources c10ext c10pe ⟨some 5, none, true, [], []⟩).recs,
        (r.idx : Int) ≠ 5) ∧
      (resourcesCommand c10ext c10pe (some 5) none false [] [] 1 []
        (fun _ => none)).opened = none ∧
      (resourcesCommand c10ext c10pe (some 5) none false [] [] 1 []
        (fun _ => none)).errors = 0 :=
  have h := resources_open_absent_index c10ext c10pe 5 none false [] [] 1 []
    (fun _ => none) (by decide) (by decide)
  ⟨by decide, by decide, h.1, h.2.trans (by decide)⟩

/-- Appending to a key affects only that key's member list. -/
theorem clusterGet_clusterAdd (m : ClusterMap) (h h' : Nat) (e : Nat × Nat) :
    clusterGet (clusterAdd m h e) h' =
      if h' = h then clusterGet m h' ++ [e] else clusterGet m h' := by
  induction m with
  | nil =>
    simp only [clusterAdd, clusterGet]
    split_ifs <;> first | rfl | omega
  | cons kv rest ih =>
    obtain ⟨k, v⟩ := kv
    by_cases hk : k = h
    · subst hk
      simp only [clusterAdd, if_pos rfl, clusterGet]
      split_ifs <;> first | rfl | omega
    · simp only [clusterAdd, if_neg hk, clusterGet, ih]
      split_ifs <;> first | rfl | omega

/-- The keys after an append are the old keys plus the appended key. -/
theorem mem_clusterKeys_clusterAdd (m : ClusterMap) (h : Nat) (e : Nat × Nat)
    (h' : Nat) :
    h' ∈ clusterKeys (clusterAdd m h e) ↔ h' ∈ clusterKeys m ∨ h' = h := by
  induction m with
  | nil => simp [clusterAdd, clusterKeys]
  | cons kv rest ih =>
    obtain ⟨k, v⟩ := kv
    by_cases hk : k = h
    · subst hk
      simp [clusterAdd, clusterKeys]
      tauto
    · simp only [clusterAdd, if_neg hk, clusterKeys, List.map_cons,
        List.mem_cons] at *
      tauto

/-- Appending preserves distinctness of the keys. -/
theorem nodup_clusterKeys_clusterAdd (m : ClusterMap) (h : Nat) (e : Nat × Nat)
    (hm : (clusterKeys m).Nodup) :
    (clusterKeys (clusterAdd m h e)).Nodup := by
  induction m with
  | nil => simp [clusterAdd, clusterKeys]
  | cons kv rest ih =>
    obtain ⟨k, v⟩ := kv
    simp only [clusterKeys, List.map_cons, List.nodup_cons] at hm
    by_cases hk : k = h
    · subst hk
      simpa [clusterAdd, clusterKeys, List.nodup_cons] using hm
    · simp only [clusterAdd, if_neg hk, clusterKeys, List.map_cons,
        List.nodup_cons]
      refine ⟨?_, ih hm.2⟩
      rw [show (clusterAdd rest h e).map Prod.fst = clusterKeys (clusterAdd rest h e) from rfl]
      rw [show rest.map Prod.fst = clusterKeys rest from rfl] at hm
      intro hc
      rcases (mem_clusterKeys_clusterAdd rest h e k).mp hc with hc' | hc'
      · exact hm.1 hc'
      · exact hk hc'

/-- Every member list in the dictionary stays nonempty under append. -/
theorem clusterAdd_values_ne_nil (m : ClusterMap) (h : Nat) (e : Nat × Nat)
    (hm : ∀ kv ∈ m, kv.2 ≠ []) :
    ∀ kv ∈ clusterAdd m h e, kv.2 ≠ [] := by
  induction m with
  | nil => simp [clusterAdd]
  | cons kv0 rest ih =>
    obtain ⟨k, v⟩ := kv0
    intro kv hkv
    have hmrest : ∀ kv' ∈ rest, kv'.2 ≠ [] :=
      fun kv' hkv' => hm kv' (List.mem_cons_of_mem _ hkv')
    by_cases hk : k = h
    · subst hk
      simp only [clusterAdd, if_pos rfl] at hkv
      cases hkv with
      | head => simp
      | tail b hkv => exact hmrest kv hkv
    · simp only [clusterAdd, if_neg hk] at hkv
      cases hkv with
      | head => exact hm (k, v) (List.mem_cons_self _ _)
      | tail b hkv => exact ih hmrest kv hkv

/-- The member list of `h` after the build loop is the old list plus
the entries of the samples fingerprinting to `h`, in scan order. -/
theorem clusterGet_clusterBuildAux (fetchImp : DbSample → Option Nat)
    (l : List DbSample) (h : Nat) :
    ∀ m : ClusterMap,
      clusterGet (clusterBuildAux fetchImp m l) h =
        clusterGet m h ++
          (l.filter (fun s => fetchImp s = some h)).map
            (fun s => (s.sha256, s.name)) := by
  induction l with
  | nil => intro m; simp [clusterBuildAux]
  | cons s rest ih =>
    intro m
    simp only [clusterBuildAux]
    cases hf : fetchImp s with
    | none =>
      rw [ih]
      have hd : (decide (fetchImp s = some h)) = false := by simp [hf]
      simp [List.filter_cons, hd]
    | some g =>
      rw [ih, clusterGet_clusterAdd]
      by_cases hg : h = g
      · subst hg
        have hd : (decide (fetchImp s = some h)) = true := by simp [hf]
        simp [List.filter_cons, hd]
      · have hd : (decide (fetchImp s = some h)) = false := by
          simp only [hf, Option.some.injEq, decide_eq_false_iff_not]
          exact fun hc => hg hc.symm
        simp [List.filter_cons, hd, hg]

/-- A key is present after the build loop iff it was present before or
some processed sample fingerprints to it. -/
theorem mem_clusterKeys_clusterBuildAux (fetchImp : DbSample → Option Nat)
    (l : List DbSample) (h : Nat) :
    ∀ m : ClusterMap,
      h ∈ clusterKeys (clusterBuildAux fetchImp m l) ↔
        h ∈ clusterKeys m ∨ ∃ s ∈ l, fetchImp s = some h := by
  induction l with
  | nil => intro m; simp [clusterBuildAux]
  | cons s rest ih =>
    intro m
    simp only [clusterBuildAux]
    cases hf : fetchImp s with
    | none =>
      rw [ih]
      simp only [List.mem_cons]
      constructor
      · rintro (hm | ⟨s', hs', hfs⟩)
        · exact Or.inl hm
        · exact Or.inr ⟨s', Or.inr hs', hfs⟩
      · rintro (hm | ⟨s', hs' | hs', hfs⟩)
        · exact Or.inl hm
        · rw [hs'] at hfs; rw [hf] at hfs; cases hfs
        · exact Or.inr ⟨s', hs', hfs⟩
    | some g =>
      rw [ih, mem_clusterKeys_clusterAdd]
      simp only [List.mem_cons]
      constructor
      · rintro ((hm | rfl) | ⟨s', hs', hfs⟩)
        · exact Or.inl hm
        · exact Or.inr ⟨s, Or.inl rfl, hf⟩
        · exact Or.inr ⟨s', Or.inr hs', hfs⟩
      · rintro (hm | ⟨s', hs' | hs', hfs⟩)
        · exact Or.inl (Or.inl hm)
        · rw [hs'] at hfs; rw [hf] at hfs
          exact Or.inl (Or.inr (Option.some.inj hfs).symm)
        · exact Or.inr ⟨s', hs', hfs⟩

/-- The build loop preserves distinctness of keys. -/
theorem nodup_clusterKeys_clusterBuildAux (fetchImp : DbSample → Option Nat)
    (l : List DbSample) :
    ∀ m : ClusterMap, (clusterKeys m).Nodup →
      (clusterKeys (clusterBuildAux fetchImp m l)).Nodup := by
  induction l with
  | nil => intro m hm; simpa [clusterBuildAux] using hm
  | cons s rest ih =>
    intro m hm
    simp only [clusterBuildAux]
    cases fetchImp s with
    | none => exact ih m hm
    | some g => exact ih _ (nodup_clusterKeys_clusterAdd m g _ hm)

/-- The build loop preserves nonemptiness of all member lists. -/
theorem values_ne_nil_clusterBuildAux (fetchImp : DbSample → Option Nat)
    (l : List DbSample) :
    ∀ m : ClusterMap, (∀ kv ∈ m, kv.2 ≠ []) →
      ∀ kv ∈ clusterBuildAux fetchImp m l, kv.2 ≠ [] := by
  induction l with
  | nil => intro m hm; simpa [clusterBuildAux] using hm
  | cons s rest ih =>
    intro m hm
    simp only [clusterBuildAux]
    cases fetchImp s with
    | none => exact ih m hm
    | some g => exact ih _ (clusterAdd_values_ne_nil m g _ hm)

/-- A present key's looked-up member list is an entry of the map. -/
theorem clusterGet_mem (m : ClusterMap) (h : Nat)
    (hmem : h ∈ clusterKeys m) : (h, clusterGet m h) ∈ m := by
  induction m with
  | nil => simp [clusterKeys] at hmem
  | cons kv rest ih =>
    obtain ⟨k, v⟩ := kv
    by_cases hk : k = h
    · subst hk
      simp [clusterGet]
    · simp only [clusterKeys, List.map_cons, List.mem_cons] at hmem
      rcases hmem with rfl | hmem
      · exact absurd rfl hk
      · simp only [clusterGet, if_neg hk]
        exact List.mem_cons_of_mem _ (ih hmem)

/-- With distinct keys, membership determines the looked-up list. -/
theorem clusterGet_of_mem (m : ClusterMap) (h : Nat) (v : List (Nat × Nat))
    (hm : (clusterKeys m).Nodup) (hmem : (h, v) ∈ m) : clusterGet m h = v := by
  induction m with
  | nil => simp at hmem
  | cons kv rest ih =>
    obtain ⟨k, v'⟩ := kv
    simp only [clusterKeys, List.map_cons, List.nodup_cons] at hm
    rcases List.mem_cons.mp hmem with heq | hmem'
    · injection heq with h1 h2
      subst h1
      subst h2
      simp [clusterGet]
    · have hk : ¬ k = h := by
        intro hc
        subst hc
        exact hm.1 (List.mem_map.mpr ⟨(k, v), hmem', rfl⟩)
      simp only [clusterGet, if_neg hk]
      exact ih hm.2 hmem'

/-- An absent key looks up the empty list. -/
theorem clusterGet_of_not_mem (m : ClusterMap) (h : Nat)
    (hmem : h ∉ clusterKeys m) : clusterGet m h = [] := by
  induction m with
  | nil => rfl
  | cons kv rest ih =>
    obtain ⟨k, v⟩ := kv
    simp only [clusterKeys, List.map_cons, List.mem_cons, not_or] at hmem
    simp only [clusterGet]
    rw [if_neg (fun hc => hmem.1 hc.symm)]
    exact ih hmem.2

/-- C8: the imphash clustering over the whole corpus reports exactly
the imphash values shared by at least two successfully fingerprinted
samples, and a reported cluster's member list is exactly the
`(sha256, name)` pairs of all samples with that imphash, in scan
order; singleton imphashes never appear. -/
theorem imphash_cluster_report_spec (samples : List DbSample)
    (fetchImp : DbSample → Option Nat) (h : Nat) :
    ((∃ v, (h, v) ∈ clusterReport samples fetchImp) ↔
        2 ≤ (samples.filter (fun s => fetchImp s = some h)).length) ∧
      (∀ v, (h, v) ∈ clusterReport samples fetchImp →
        v = (samples.filter (fun s => fetchImp s = some h)).map
          (fun s => (s.sha256, s.name))) := by
  have hget : clusterGet (clusterBuild samples fetchImp) h =
      (samples.filter (fun s => fetchImp s = some h)).map
        (fun s => (s.sha256, s.name)) := by
    rw [clusterBuild, clusterGet_clusterBuildAux]
    rfl
  have hnodup : (clusterKeys (clusterBuild samples fetchImp)).Nodup :=
    nodup_clusterKeys_clusterBuildAux fetchImp samples [] (by simp [clusterKeys])
  have hne : ∀ kv ∈ clusterBuild samples fetchImp, kv.2 ≠ [] :=
    values_ne_nil_clusterBuildAux fetchImp samples [] (by simp)
  have hkeys : h ∈ clusterKeys (clusterBuild samples fetchImp) ↔
      ∃ s ∈ samples, fetchImp s = some h := by
    rw [clusterBuild, mem_clusterKeys_clusterBuildAux]
    simp [clusterKeys]
  have hmain : ∀ v, (h, v) ∈ clusterReport samples fetchImp →
      v = (samples.filter (fun s => fetchImp s = some h)).map
        (fun s => (s.sha256, s.name)) := by
    intro v hv
    have hb : (h, v) ∈ clusterBuild samples fetchImp :=
      (List.mem_filter.mp hv).1
    rw [← hget]
    exact (clusterGet_of_mem _ h v hnodup hb).symm
  refine ⟨⟨?_, ?_⟩, hmain⟩
  · rintro ⟨v, hv⟩
    have hlen : v.length ≠ 1 := by
      have := (List.mem_filter.mp hv).2
      simpa using this
    have hb : (h, v) ∈ clusterBuild samples fetchImp :=
      (List.mem_filter.mp hv).1
    have hv' := hmain v hv
    have hvne : v ≠ [] := hne (h, v) hb
    have : 1 ≤ v.length := by
      cases v
      · exact absurd rfl hvne
      · simp
    rw [hv'] at this hlen
    rw [List.length_map] at this hlen
    omega
  · intro h2
    have hfil : ∃ s ∈ samples, fetchImp s = some h := by
      rcases hl : samples.filter (fun s => fetchImp s = some h) with _ | ⟨s, rest⟩
      · rw [hl] at h2; simp at h2
      · have hs : s ∈ samples.filter (fun s => fetchImp s = some h) := by
          rw [hl]; exact List.mem_cons_self _ _
        have := List.mem_filter.mp hs
        exact ⟨s, this.1, by simpa using this.2⟩
    have hmem : h ∈ clusterKeys (clusterBuild samples fetchImp) :=
      hkeys.mpr hfil
    refine ⟨clusterGet (clusterBuild samples fetchImp) h,
      List.mem_filter.mpr ⟨clusterGet_mem _ h hmem, ?_⟩⟩
    rw [hget]
    simp only [List.length_map, decide_eq_true_eq]
    omega

/-- C8 witness: a three-sample corpus where two samples share imphash 5
and the third has imphash 9 reports exactly the cluster of the two. -/
theorem imphash_cluster_report_spec_witness :
    (((5 : Nat), [((1 : Nat), (11 : Nat)), (2, 22)]) ∈
        clusterReport c8samples c8fetch) ∧
      [((1 : Nat), (11 : Nat)), (2, 22)] =
        (c8samples.filter (fun s => c8fetch s = some 5)).map
          (fun s => (s.sha256, s.name)) :=
  ⟨by decide,
    (imphash_cluster_report_spec c8samples c8fetch 5).2 _ (by decide)⟩
